import Mathlib

/-!
Verification of the `pafnuty` sampling library (Python) against its
natural-language specification.  The Python source under
`src/pafnuty/samplers/{rng,mcmc,disc}.py` is shallowly embedded below:
Python ints become `ℤ`, floats become `ℚ` (the numerical claims under
study are exact range/recurrence facts, not rounding facts), raised
`ValueError`s become an explicit `PyErr` error value carried in
`Except`, and object mutation becomes explicit state passing.
-/

set_option autoImplicit false
set_option maxRecDepth 8000

namespace Pafnuty

/-- The `ValueError`s the embedded code can raise, one constructor per
`raise` site (plus the numpy "truth value of an array with more than one
element is ambiguous" error that an `if` on a multi-element array raises). -/
inductive PyErr where
  | rangeError
  | seedLengthError
  | unsupportedDistribution
  | ambiguousTruthValue
  deriving DecidableEq, Repr

/-- Embedding of class `GGL` (rng.py lines 5-81): the linear congruential
generator.  Fields are the attributes set in `__init__`; none of the
methods below ever changes them, mirroring the source, where `sample`
re-creates the generator closure from the immutable `self.seed`. -/
structure GGL where
  m : ℤ
  a : ℤ
  c : ℤ
  seed : ℤ
  deriving DecidableEq, Repr

/-- `GGL()` with the default arguments of `__init__` (rng.py line 6). -/
def GGL.dflt : GGL := ⟨2 ^ 31 - 1, 16807, 0, 300416⟩

/-- One iteration of the `_ggl` generator body (rng.py line 26):
`x = (self.a * x + self.c) % self.m`.  Python `%` on ints is `Int.emod`. -/
def GGL.step (g : GGL) (x : ℤ) : ℤ := (g.a * x + g.c) % g.m

/-- The raw stream of the recurrence: `stream 0` is the seed, `stream (n+1)`
the value yielded by the (n+1)-st `next` on a generator started at the seed. -/
def GGL.stream (g : GGL) : ℕ → ℤ
  | 0 => g.seed
  | n + 1 => g.step (g.stream n)

/-- The list of the first `n` yields of `_ggl` started at `x`. -/
def GGL.sampleAux (g : GGL) (x : ℤ) : ℕ → List ℤ
  | 0 => []
  | n + 1 =>
      let y := g.step x
      y :: g.sampleAux y n

/-- Embedding of `GGL.sample` (rng.py lines 29-50).  The source runs
`lcg = self._ggl(self.seed)` and takes `N` values: every call restarts the
recurrence at the stored, never-mutated `self.seed`. -/
def GGL.sample (g : GGL) (n : ℕ) : List ℤ := g.sampleAux g.seed n

/-- Embedding of `GGL.norm_sample` (rng.py lines 52-81): bound check, then
`samples / m * (upper - lower) + lower` elementwise. -/
def GGL.norm_sample (g : GGL) (lower upper : ℚ) (n : ℕ) : Except PyErr (List ℚ) :=
  if upper ≤ lower then .error .rangeError
  else .ok ((g.sample n).map (fun r : ℤ => (r : ℚ) / (g.m : ℚ) * (upper - lower) + lower))

/-- Embedding of class `LFG` (rng.py lines 84-168): the lagged Fibonacci
generator.  `a` and `b` are the lags (used as Python negative indices
`-a`, `-b`, so they are taken to be at least 1 in all theorems below);
`seeds` is the growing history list `self.seeds`. -/
structure LFG where
  m : ℤ
  a : ℕ
  b : ℕ
  seeds : List ℤ
  deriving DecidableEq, Repr

/-- The default-argument path of `LFG.__init__` when no (or an empty) seed
buffer is supplied (rng.py lines 100-102): `ggl = GGL(); ggl.sample(N=self.b)`. -/
def LFG.dflt : LFG := ⟨2 ^ 32, 24, 55, GGL.dflt.sample 55⟩

/-- Embedding of `LFG.__init__` (rng.py lines 85-102).  `if seeds:` is
Python truthiness: `None` and the empty list both take the self-seeding
branch; only a non-empty buffer is length-checked against `b`. -/
def LFG.make (seeds : Option (List ℤ)) (m : ℤ) (a b : ℕ) : Except PyErr LFG :=
  match seeds with
  | some s =>
      if s.isEmpty then .ok ⟨m, a, b, GGL.dflt.sample b⟩
      else if s.length < b then .error .seedLengthError
      else .ok ⟨m, a, b, s⟩
  | none => .ok ⟨m, a, b, GGL.dflt.sample b⟩

/-- One iteration of the `_lfg` generator body (rng.py lines 112-116):
append `(seeds[-b] - seeds[-a]) % m`, return the appended value.  Negative
indices `-b`, `-a` (lags ≥ 1) are `length - b`, `length - a`; out-of-range
reads (which would raise in Python and are excluded by the hypotheses of
every theorem using them) are modelled by `getD` with default 0. -/
def LFG.next (l : LFG) : LFG × ℤ :=
  let v := (l.seeds.getD (l.seeds.length - l.b) 0 - l.seeds.getD (l.seeds.length - l.a) 0) % l.m
  (⟨l.m, l.a, l.b, l.seeds ++ [v]⟩, v)

/-- Embedding of `LFG.sample` (rng.py lines 118-137): `n` successive
`next(rng)` values, threading the mutated history. -/
def LFG.sample (l : LFG) : ℕ → LFG × List ℤ
  | 0 => (l, [])
  | n + 1 =>
      let p := l.next
      let q := p.1.sample n
      (q.1, p.2 :: q.2)

/-- Embedding of `LFG.norm_sample` (rng.py lines 139-168): bound check
before any draw, then `samples / m * (upper - lower) + lower` elementwise. -/
def LFG.norm_sample (l : LFG) (lower upper : ℚ) (n : ℕ) : Except PyErr (LFG × List ℚ) :=
  if upper ≤ lower then .error .rangeError
  else
    let p := l.sample n
    .ok (p.1, p.2.map (fun r : ℤ => (r : ℚ) / (l.m : ℚ) * (upper - lower) + lower))

/-- Python `int()` applied to a rational: truncation towards zero
(mcmc.py line 56, `steps = int(self.path_len / self.step_size)`). -/
def pyInt (q : ℚ) : ℤ := if 0 ≤ q then ⌊q⌋ else ⌈q⌉

/-- The capability surface of a `pafnuty.Dist` object as `HMC.sample`
consumes it (distributions.py): a family tag `name`, `logpdf`, the
gradient `dVdQ`, and the value `.sample().item()` returns on the i-th
call of a run (the draws are an external entropy source — jax — so they
are abstracted as an arbitrary function of the call counter). -/
structure PyDist where
  name : String
  logpdf : ℚ → ℚ
  dVdQ : ℚ → ℚ
  draw : ℕ → ℚ

/-- Embedding of class `HMC`'s constructor attributes (mcmc.py lines 11-19). -/
structure HMC where
  path_len : ℚ
  step_size : ℚ
  epochs : ℕ

/-- The numpy truthiness of the boolean array `event <= acceptance` as used
by `if event <= acceptance:` (mcmc.py line 91): defined only when the array
has exactly one element, otherwise numpy raises
`ValueError: The truth value of an array with more than one element is
ambiguous`. -/
def pyIfLE (xs : List ℚ) (acc : ℚ) : Except PyErr Bool :=
  match xs with
  | [x] => .ok (decide (x ≤ acc))
  | _ => .error .ambiguousTruthValue

/-- The leapfrog loop of mcmc.py lines 70-73, with the per-epoch constant
`dVdQ`: each substep is a half-step momentum, full-step position,
half-step momentum update. -/
def leapfrog (stepSize dVdQ : ℚ) : ℕ → ℚ × ℚ → ℚ × ℚ
  | 0, qp => qp
  | n + 1, qp =>
      let p1 := qp.2 + stepSize * dVdQ / 2
      let q1 := qp.1 + stepSize * p1
      let p2 := p1 + stepSize * dVdQ / 2
      leapfrog stepSize dVdQ n (q1, p2)

/-- The accept/reject decision of mcmc.py lines 91-94 on the already-drawn
variates `us` and the truthiness outcome `e` of `event <= acceptance`:
append `q1` when true, `q0` when false, propagate the numpy error
otherwise.  The drawn variates are returned alongside for observability. -/
def acceptStep (us : List ℚ) (e : Except PyErr Bool) (q1 q0 : ℚ) :
    List ℚ × Except PyErr ℚ :=
  match e with
  | .error er => (us, .error er)
  | .ok true => (us, .ok q1)
  | .ok false => (us, .ok q0)

/-- The acceptance test of mcmc.py lines 88-94 given the result `ns` of
`LFG().norm_sample()`: `event = np.log(...)` elementwise, then
`if event <= acceptance:` decides which point is appended. -/
def acceptFull (ns : Except PyErr (LFG × List ℚ)) (log : ℚ → ℚ) (acc q1 q0 : ℚ) :
    List ℚ × Except PyErr ℚ :=
  match ns with
  | .error e => ([], .error e)
  | .ok pr => acceptStep pr.2 (pyIfLE (pr.2.map log) acc) q1 q0

/-- The proposal position after the leapfrog loop of one epoch:
`q1` at mcmc.py line 74, starting from `q1 = q0`, `p1 = p0` and running
`steps = int(path_len / step_size)` substeps. -/
def HMC.q1val (h : HMC) (dist : PyDist) (q0 p0 : ℚ) : ℚ :=
  (leapfrog h.step_size (dist.dVdQ q0) (pyInt (h.path_len / h.step_size)).toNat (q0, p0)).1

/-- The proposal momentum after the leapfrog loop and the reversibility
flip `p1 = -1 * p1` (mcmc.py line 75). -/
def HMC.p1val (h : HMC) (dist : PyDist) (q0 p0 : ℚ) : ℚ :=
  -(leapfrog h.step_size (dist.dVdQ q0) (pyInt (h.path_len / h.step_size)).toNat (q0, p0)).2

/-- The acceptance log ratio of mcmc.py lines 78-86:
`(q0_nlp - q1_nlp) + (p1_nlp - p0_nlp)` with the four negative
log-densities. -/
def HMC.accVal (h : HMC) (dist mom : PyDist) (q0 p0 : ℚ) : ℚ :=
  (-dist.logpdf q0 - -dist.logpdf (h.q1val dist q0 p0)) +
    (-mom.logpdf (h.p1val dist q0 p0) - -mom.logpdf p0)

/-- The body of one iteration of the epoch loop (mcmc.py lines 59-94),
given the current chain state `q0` and the freshly drawn momentum `p0`.
Returned are the uniform variates the acceptance test drew (the value of
`rng.norm_sample()` at line 90, whose default count is `N=10**6`) and
either the element appended to `samples` or the raised error. -/
def HMC.epochStep (h : HMC) (log : ℚ → ℚ) (dist mom : PyDist) (q0 p0 : ℚ) :
    List ℚ × Except PyErr ℚ :=
  acceptFull (LFG.dflt.norm_sample 0 1 1000000) log (h.accVal dist mom q0 p0)
    (h.q1val dist q0 p0) q0

/-- The epoch loop of `HMC.sample`: `e` epochs remain, `k` is the momentum
call counter, `acc` is the `samples` list most-recent-first (`samples[-1]`
is `acc.headD 0`; `acc` is never empty when called from `HMC.sample`). -/
def HMC.loop (h : HMC) (log : ℚ → ℚ) (dist mom : PyDist) :
    ℕ → ℕ → List ℚ → Except PyErr (List ℚ)
  | 0, _, acc => .ok acc.reverse
  | e + 1, k, acc =>
      ((HMC.epochStep h log dist mom (acc.headD 0) (mom.draw k)).2).bind
        (fun v => HMC.loop h log dist mom e (k + 1) (v :: acc))

/-- Embedding of `HMC.sample` (mcmc.py lines 21-97).  `log` is numpy's
elementwise `np.log`, kept abstract (the claims under study do not depend
on its values).  The family gate at line 50 uses `is not` on interned
string literals, which on the reachable values coincides with string
disequality. -/
def HMC.sample (h : HMC) (log : ℚ → ℚ) (dist mom : PyDist) : Except PyErr (List ℚ) :=
  if dist.name ≠ "Normal" ∨ mom.name ≠ "Normal" then .error .unsupportedDistribution
  else
    let init := mom.draw 0
    HMC.loop h log dist mom h.epochs 1 [init]

/-- Embedding of class `Disc`'s state (disc.py lines 8-43): the radius and
the lagged-Fibonacci generator built in `__init__` (`self.rng = LFG()`).
The `strategy` string only selects which entry of the strategy dictionary
`Disc.sample` returns and is passed separately below. -/
structure Disc where
  r : ℚ
  rng : LFG

/-- A `Disc(r)` as `__init__` builds it: radius `r` and a default `LFG`. -/
def Disc.make (r : ℚ) : Disc := ⟨r, LFG.dflt⟩

/-- The pair-drawing loop of `Disc._rejection` (disc.py lines 112-117): `n`
calls of `self.rng.norm_sample(lower=-r, upper=r, N=2)` on the shared,
stateful generator, each yielding one `(x, y)` row of `samples`. -/
def Disc.rejPairs (rng : LFG) (r : ℚ) : ℕ → Except PyErr (LFG × List (ℚ × ℚ))
  | 0 => .ok (rng, [])
  | n + 1 =>
      (rng.norm_sample (-r) r 2).bind (fun pr =>
        (Disc.rejPairs pr.1 r n).map (fun pr2 =>
          (pr2.1, (pr.2.getD 0 0, pr.2.getD 1 0) :: pr2.2)))

/-- The `accepted = samples[norms <= self.r]` filter computed at disc.py
lines 119-121.  `norms` is `sqrt(x^2 + y^2)`, so `norms <= r` is stated on
squares, equivalent whenever `r > 0` — the only case in which this code is
reached, since `norm_sample(-r, r, 2)` raises for `r <= 0`. -/
def Disc.accepted (r : ℚ) (ps : List (ℚ × ℚ)) : List (ℚ × ℚ) :=
  ps.filter (fun p => p.1 * p.1 + p.2 * p.2 ≤ r * r)

/-- Embedding of `Disc._rejection` (disc.py lines 98-122).  The source
computes `accepted` (see `Disc.accepted`) and then ignores it, returning
the unfiltered columns `(samples[:, 0], samples[:, 1])`. -/
def Disc.rejection (d : Disc) (n : ℕ) : Except PyErr (List ℚ × List ℚ) :=
  (Disc.rejPairs d.rng d.r n).map (fun pr => (pr.2.map Prod.fst, pr.2.map Prod.snd))

/-- Embedding of `Disc.sample` (disc.py lines 124-146) for an instance whose
strategy is "rejection".  The strategy dictionary literal evaluates all
three strategy methods in insertion order before `.get` picks one, so
`_inverse` and `_polar` each consume `2 * n` raw draws from the shared
generator (their trigonometric post-processing never touches it) before
`_rejection` runs. -/
def Disc.sampleRejection (d : Disc) (n : ℕ) : Except PyErr (List ℚ × List ℚ) :=
  let rng1 := ((d.rng.sample (2 * n)).1.sample (2 * n)).1
  Disc.rejection ⟨d.r, rng1⟩ n

/-- A distribution stub carrying the supported family tag; only its `name`
and `draw` fields are ever inspected on the code paths exercised below. -/
def normalStub : PyDist := ⟨"Normal", fun _ => 0, fun _ => 0, fun _ => 0⟩

/-- A distribution stub carrying the unsupported family tag "Uniform". -/
def uniformStub : PyDist := ⟨"Uniform", fun _ => 0, fun _ => 0, fun _ => 0⟩

/-- The lagged-Fibonacci recurrence law on a history list `s`, asserted for
every index from `i0` on: entry `n` is the difference of the entries `b`
and `a` places back, reduced mod `m`. -/
def recurLaw (m : ℤ) (a b : ℕ) (s : List ℤ) (i0 : ℕ) : Prop :=
  ∀ n, i0 ≤ n → n < s.length → s.getD n 0 = (s.getD (n - b) 0 - s.getD (n - a) 0) % m

/-!  Helper lemmas. -/

theorem GGL.sampleAux_take (g : GGL) :
    ∀ (n k : ℕ) (x : ℤ), k ≤ n → g.sampleAux x k = (g.sampleAux x n).take k := by
  intro n
  induction n with
  | zero =>
      intro k x hk
      have : k = 0 := Nat.le_zero.mp hk
      subst this
      rfl
  | succ n ih =>
      intro k x hk
      cases k with
      | zero => rfl
      | succ k =>
          simp only [GGL.sampleAux, List.take_succ_cons]
          exact congrArg _ (ih k (g.step x) (Nat.succ_le_succ_iff.mp hk))

theorem GGL.sampleAux_mem (g : GGL) (hm : 0 < g.m) :
    ∀ (n : ℕ) (x v : ℤ), v ∈ g.sampleAux x n → 0 ≤ v ∧ v < g.m := by
  intro n
  induction n with
  | zero => intro x v hv; simp [GGL.sampleAux] at hv
  | succ n ih =>
      intro x v hv
      simp only [GGL.sampleAux, List.mem_cons] at hv
      rcases hv with hv | hv
      · subst hv
        exact ⟨Int.emod_nonneg _ (ne_of_gt hm), Int.emod_lt_of_pos _ hm⟩
      · exact ih (g.step x) v hv

theorem LFG.next_seeds (l : LFG) : l.next.1.seeds = l.seeds ++ [l.next.2] := rfl

theorem LFG.sample_seeds : ∀ (k : ℕ) (l : LFG),
    (l.sample k).1.seeds = l.seeds ++ (l.sample k).2 := by
  intro k
  induction k with
  | zero => intro l; simp [LFG.sample]
  | succ k ih =>
      intro l
      show (l.next.1.sample k).1.seeds = l.seeds ++ (l.next.2 :: (l.next.1.sample k).2)
      rw [ih l.next.1, LFG.next_seeds, List.append_assoc, List.singleton_append]

theorem LFG.sample_snd_length : ∀ (k : ℕ) (l : LFG), ((l.sample k).2).length = k := by
  intro k
  induction k with
  | zero => intro l; rfl
  | succ k ih =>
      intro l
      show (l.next.2 :: (l.next.1.sample k).2).length = k + 1
      rw [List.length_cons, ih]

theorem LFG.sample_mem : ∀ (k : ℕ) (l : LFG), 0 < l.m →
    ∀ v ∈ (l.sample k).2, 0 ≤ v ∧ v < l.m := by
  intro k
  induction k with
  | zero => intro l _ v hv; simp [LFG.sample] at hv
  | succ k ih =>
      intro l hm v hv
      rw [show (l.sample (k + 1)).2 = l.next.2 :: (l.next.1.sample k).2 from rfl,
        List.mem_cons] at hv
      rcases hv with hv | hv
      · subst hv
        exact ⟨Int.emod_nonneg _ (ne_of_gt hm), Int.emod_lt_of_pos _ hm⟩
      · exact ih l.next.1 hm v hv

theorem LFG.norm_sample_ok (l : LFG) (lower upper : ℚ) (n : ℕ) (h : lower < upper) :
    l.norm_sample lower upper n =
      .ok ((l.sample n).1,
        (l.sample n).2.map (fun r : ℤ => (r : ℚ) / (l.m : ℚ) * (upper - lower) + lower)) := by
  rw [LFG.norm_sample, if_neg (not_le.mpr h)]

theorem recurLaw_extend (m : ℤ) (a b : ℕ) (s : List ℤ) (i0 : ℕ)
    (ha : 0 < a) (hab : a < b) (hb : b ≤ s.length) (hlaw : recurLaw m a b s i0) :
    recurLaw m a b (s ++ [(s.getD (s.length - b) 0 - s.getD (s.length - a) 0) % m]) i0 := by
  have hb0 : 0 < b := lt_trans ha hab
  have hs0 : 0 < s.length := lt_of_lt_of_le hb0 hb
  intro n hn hlen
  rw [List.length_append, List.length_cons, List.length_nil] at hlen
  rcases Nat.lt_succ_iff_lt_or_eq.mp hlen with hlt | heq
  · have h1 : n - b < s.length := lt_of_le_of_lt (Nat.sub_le n b) hlt
    have h2 : n - a < s.length := lt_of_le_of_lt (Nat.sub_le n a) hlt
    rw [List.getD_append _ _ _ _ hlt, List.getD_append _ _ _ _ h1,
      List.getD_append _ _ _ _ h2]
    exact hlaw n hn hlt
  · subst heq
    have h1 : s.length - b < s.length := Nat.sub_lt hs0 hb0
    have h2 : s.length - a < s.length := Nat.sub_lt hs0 ha
    rw [List.getD_append_right _ _ _ _ (le_refl s.length), Nat.sub_self,
      List.getD_append _ _ _ _ h1, List.getD_append _ _ _ _ h2]
    rfl

theorem LFG.sample_law : ∀ (k : ℕ) (l : LFG) (i0 : ℕ),
    0 < l.a → l.a < l.b → l.b ≤ l.seeds.length → recurLaw l.m l.a l.b l.seeds i0 →
    recurLaw l.m l.a l.b (l.sample k).1.seeds i0 := by
  intro k
  induction k with
  | zero => intro l i0 _ _ _ hlaw; exact hlaw
  | succ k ih =>
      intro l i0 ha hab hb hlaw
      show recurLaw l.m l.a l.b (l.next.1.sample k).1.seeds i0
      apply ih l.next.1 i0 ha hab
      · rw [show l.next.1.seeds = l.seeds ++ [l.next.2] from rfl, List.length_append]
        exact le_trans hb (Nat.le_add_right _ _)
      · exact recurLaw_extend l.m l.a l.b l.seeds i0 ha hab hb hlaw

/-!  Claim C2. -/

/-- C2 counterexample: on the default LCG, a second `sample(2)` call after a
first `sample(2)` call returns the same two stream elements again — the
embedded `GGL.sample` reads only the never-mutated `seed` field, exactly as
the source rebuilds `self._ggl(self.seed)` on every call — and it is not the
continuation `[stream 3, stream 4]` the claim demands. -/
theorem ggl_second_call_not_continuation :
    GGL.dflt.sample 2 = [GGL.dflt.stream 1, GGL.dflt.stream 2] ∧
    GGL.dflt.sample 2 ≠ [GGL.dflt.stream 3, GGL.dflt.stream 4] := by
  constructor
  · rfl
  · decide

/-- C2 (amended): `GGL.sample` never mutates the stored state, so a later
call with count `k ≤ n` returns exactly the first `k` elements of the
earlier call's result — a repetition of the stream head, not its
continuation. -/
theorem ggl_sample_restarts (g : GGL) (n k : ℕ) (hk : k ≤ n) :
    g.sample k = (g.sample n).take k :=
  GGL.sampleAux_take g n k g.seed hk

/-- Witness for `ggl_sample_restarts` at the default generator, `n = 4`,
`k = 2`. -/
theorem ggl_sample_restarts_witness :
    2 ≤ 4 ∧ GGL.dflt.sample 2 = (GGL.dflt.sample 4).take 2 :=
  ⟨by decide, ggl_sample_restarts GGL.dflt 4 2 (by decide)⟩

/-!  Claim C4. -/

/-- C4 counterexample: the constructor guard is `if seeds:` (rng.py line
91), and the empty list is falsy in Python, so an explicitly provided empty
buffer — whose length 0 is below `lag_b = 55` — does not raise
`SeedLengthError`; it silently takes the self-seeding branch, yielding the
same instance as passing no buffer at all. -/
theorem lfg_empty_buffer_no_error :
    LFG.make (some []) (2 ^ 32) 24 55 = .ok LFG.dflt ∧
    ([] : List ℤ).length < 55 ∧
    LFG.make (some []) (2 ^ 32) 24 55 ≠ .error .seedLengthError := by
  refine ⟨rfl, by decide, fun h => ?_⟩
  rw [show LFG.make (some []) (2 ^ 32) 24 55 = .ok LFG.dflt from rfl] at h
  exact Except.noConfusion h

/-- C4 (amended): for a provided NON-EMPTY seed buffer the constructor
behaves as claimed: length below `lag_b` raises `SeedLengthError`, length
at least `lag_b` succeeds and installs the buffer as the history verbatim.
(The empty buffer instead falls through to default self-seeding, see
`lfg_empty_buffer_no_error`.) -/
theorem lfg_seed_buffer_check (s : List ℤ) (m : ℤ) (a b : ℕ) (hs : s ≠ []) :
    (s.length < b → LFG.make (some s) m a b = .error .seedLengthError) ∧
    (b ≤ s.length → LFG.make (some s) m a b = .ok ⟨m, a, b, s⟩) := by
  have hemp : s.isEmpty = false := by
    cases s with
    | nil => exact absurd rfl hs
    | cons x t => rfl
  constructor
  · intro h
    rw [LFG.make, hemp]
    simp only [Bool.false_eq_true, if_false, if_pos h]
  · intro h
    rw [LFG.make, hemp]
    simp only [Bool.false_eq_true, if_false, if_neg (not_lt.mpr h)]

/-- Witness for `lfg_seed_buffer_check`: a one-element buffer raises, a
55-element buffer is installed verbatim. -/
theorem lfg_seed_buffer_check_witness :
    ([(3 : ℤ)] ≠ [] ∧ [(3 : ℤ)].length < 55 ∧
      LFG.make (some [3]) (2 ^ 32) 24 55 = .error .seedLengthError) ∧
    (List.replicate 55 (0 : ℤ) ≠ [] ∧ 55 ≤ (List.replicate 55 (0 : ℤ)).length ∧
      LFG.make (some (List.replicate 55 0)) (2 ^ 32) 24 55 =
        .ok ⟨2 ^ 32, 24, 55, List.replicate 55 0⟩) :=
  ⟨⟨by decide, by decide,
      (lfg_seed_buffer_check [3] (2 ^ 32) 24 55 (by decide)).1 (by decide)⟩,
    ⟨by decide, by decide,
      (lfg_seed_buffer_check (List.replicate 55 0) (2 ^ 32) 24 55 (by decide)).2
        (by decide)⟩⟩

/-!  Claim C5. -/

/-- A valid 56-element seed buffer (length above `lag_b = 55`) whose last
entry breaks the recurrence law at index 55. -/
def lfgLong : LFG := ⟨2 ^ 32, 24, 55, List.replicate 55 0 ++ [1]⟩

/-- C5 counterexample: the constructor accepts the 56-element buffer of
`lfgLong`, and after one draw the history violates the claimed law at index
`n = 55 = lag_b`: `history[55] = 1` but
`(history[0] - history[31]) mod 2^32 = 0`.  The law only governs entries the
generator itself appended, not the tail of a user-supplied buffer. -/
theorem lfg_history_law_ce :
    LFG.make (some (List.replicate 55 0 ++ [1])) (2 ^ 32) 24 55 = .ok lfgLong ∧
    55 < ((lfgLong.sample 1).1.seeds).length ∧
    (lfgLong.sample 1).1.seeds.getD 55 0 ≠
      ((lfgLong.sample 1).1.seeds.getD (55 - 55) 0 -
        (lfgLong.sample 1).1.seeds.getD (55 - 24) 0) % 2 ^ 32 := by
  refine ⟨rfl, by decide, by decide⟩

/-- C5 (amended): for every LFG instance whose lags satisfy
`0 < lag_a < lag_b ≤ history length`, after any number of draws (i) the
history is the original one extended append-only by exactly the values the
draws returned, and (ii) every entry at an index at or beyond the original
length obeys `history[n] = (history[n - lag_b] - history[n - lag_a]) mod m`.
For a default-seeded instance the original length is exactly `lag_b`, which
gives the claim's law for every `n ≥ lag_b`; for longer user-supplied
buffers the law starts at the buffer length instead (see
`lfg_history_law_ce`). -/
theorem lfg_history_law (l : LFG) (k : ℕ)
    (ha : 0 < l.a) (hab : l.a < l.b) (hb : l.b ≤ l.seeds.length) :
    (l.sample k).1.seeds = l.seeds ++ (l.sample k).2 ∧
    recurLaw l.m l.a l.b (l.sample k).1.seeds l.seeds.length := by
  refine ⟨LFG.sample_seeds k l, ?_⟩
  apply LFG.sample_law k l l.seeds.length ha hab hb
  intro n hn hlen
  exact absurd (lt_of_le_of_lt hn hlen) (lt_irrefl _)

/-- Witness for `lfg_history_law` at the default-seeded instance after two
draws. -/
theorem lfg_history_law_witness :
    0 < LFG.dflt.a ∧ LFG.dflt.a < LFG.dflt.b ∧ LFG.dflt.b ≤ LFG.dflt.seeds.length ∧
    ((LFG.dflt.sample 2).1.seeds = LFG.dflt.seeds ++ (LFG.dflt.sample 2).2 ∧
      recurLaw LFG.dflt.m LFG.dflt.a LFG.dflt.b (LFG.dflt.sample 2).1.seeds
        LFG.dflt.seeds.length) :=
  ⟨by decide, by decide, by decide,
    lfg_history_law LFG.dflt 2 (by decide) (by decide) (by decide)⟩

/-!  Claim C6. -/

theorem norm_map_bound (r m : ℤ) (lower upper : ℚ)
    (hr : 0 ≤ r) (hrm : r < m) (hlu : lower < upper) :
    lower ≤ (r : ℚ) / (m : ℚ) * (upper - lower) + lower ∧
    (r : ℚ) / (m : ℚ) * (upper - lower) + lower < upper := by
  have hm : (0 : ℚ) < (m : ℚ) := by exact_mod_cast lt_of_le_of_lt hr hrm
  have ht0 : (0 : ℚ) ≤ (r : ℚ) / (m : ℚ) := by
    apply div_nonneg _ (le_of_lt hm)
    exact_mod_cast hr
  have ht1 : (r : ℚ) / (m : ℚ) < 1 := by
    rw [div_lt_one hm]
    exact_mod_cast hrm
  have hd : (0 : ℚ) < upper - lower := sub_pos.mpr hlu
  constructor
  · nlinarith [mul_nonneg ht0 (le_of_lt hd)]
  · nlinarith [mul_lt_mul_of_pos_right ht1 hd]

/-- C6: for both generators, with positive modulus: when `upper > lower`
every element of a successful `norm_sample` lies in `[lower, upper)`; when
`upper ≤ lower` the call returns `RangeError` — the guard runs before any
draw is made (in the embedding the error branch is taken before `sample` is
ever consulted, mirroring rng.py lines 73 and 160). -/
theorem norm_sample_range (g : GGL) (l : LFG) (lower upper : ℚ) (n : ℕ)
    (hgm : 0 < g.m) (hlm : 0 < l.m) :
    (lower < upper →
      (∀ xs, g.norm_sample lower upper n = .ok xs → ∀ x ∈ xs, lower ≤ x ∧ x < upper) ∧
      (∀ st xs, l.norm_sample lower upper n = .ok (st, xs) →
        ∀ x ∈ xs, lower ≤ x ∧ x < upper)) ∧
    (upper ≤ lower →
      g.norm_sample lower upper n = .error .rangeError ∧
      l.norm_sample lower upper n = .error .rangeError) := by
  constructor
  · intro hlu
    constructor
    · intro xs hxs x hx
      rw [GGL.norm_sample, if_neg (not_le.mpr hlu)] at hxs
      injection hxs with hxs
      subst hxs
      rcases List.mem_map.mp hx with ⟨r, hr, hrx⟩
      subst hrx
      rcases GGL.sampleAux_mem g hgm n g.seed r hr with ⟨h0, h1⟩
      exact norm_map_bound r g.m lower upper h0 h1 hlu
    · intro st xs hxs x hx
      rw [LFG.norm_sample_ok l lower upper n hlu] at hxs
      injection hxs with hxs
      have hxs2 : xs =
          (l.sample n).2.map (fun r : ℤ => (r : ℚ) / (l.m : ℚ) * (upper - lower) + lower) :=
        congrArg Prod.snd hxs.symm
      subst hxs2
      rcases List.mem_map.mp hx with ⟨r, hr, hrx⟩
      subst hrx
      rcases LFG.sample_mem n l hlm r hr with ⟨h0, h1⟩
      exact norm_map_bound r l.m lower upper h0 h1 hlu
  · intro hul
    exact ⟨by rw [GGL.norm_sample, if_pos hul], by rw [LFG.norm_sample, if_pos hul]⟩

/-- Witness for `norm_sample_range` at the default generators: two draws
into `[0, 1)` land in range, and the misordered bounds `(5, 3)` raise. -/
theorem norm_sample_range_witness :
    0 < GGL.dflt.m ∧ 0 < LFG.dflt.m ∧ (0 : ℚ) < 1 ∧ (3 : ℚ) ≤ 5 ∧
    (∀ xs, GGL.dflt.norm_sample 0 1 2 = .ok xs → ∀ x ∈ xs, 0 ≤ x ∧ x < 1) ∧
    (∀ st xs, LFG.dflt.norm_sample 0 1 2 = .ok (st, xs) → ∀ x ∈ xs, 0 ≤ x ∧ x < 1) ∧
    GGL.dflt.norm_sample 5 3 2 = .error .rangeError ∧
    LFG.dflt.norm_sample 5 3 2 = .error .rangeError :=
  ⟨by decide, by decide, by decide, by decide,
    ((norm_sample_range GGL.dflt LFG.dflt 0 1 2 (by decide) (by decide)).1
      (by decide)).1,
    ((norm_sample_range GGL.dflt LFG.dflt 0 1 2 (by decide) (by decide)).1
      (by decide)).2,
    ((norm_sample_range GGL.dflt LFG.dflt 5 3 2 (by decide) (by decide)).2
      (by decide)).1,
    ((norm_sample_range GGL.dflt LFG.dflt 5 3 2 (by decide) (by decide)).2
      (by decide)).2⟩

/-!  HMC helper lemmas. -/

theorem pyIfLE_err (xs : List ℚ) (acc : ℚ) (h : xs.length ≠ 1) :
    pyIfLE xs acc = .error .ambiguousTruthValue := by
  match xs with
  | [] => rfl
  | [x] => exact absurd rfl h
  | x :: y :: t => rfl

/-- The normalized acceptance-test draws of one epoch: the value of
`LFG().norm_sample()` as `HMC.sample` produces it at mcmc.py lines 89-90. -/
def acceptanceDraws : List ℚ :=
  (LFG.dflt.sample 1000000).2.map (fun r : ℤ => (r : ℚ) / (LFG.dflt.m : ℚ) * (1 - 0) + 0)

theorem acceptStep_fst (us : List ℚ) (e : Except PyErr Bool) (q1 q0 : ℚ) :
    (acceptStep us e q1 q0).1 = us := by
  rcases e with er | b
  · rfl
  · cases b <;> rfl

theorem acceptanceDraws_length : acceptanceDraws.length = 1000000 := by
  rw [acceptanceDraws, List.length_map, LFG.sample_snd_length]

theorem acceptFull_fst (log : ℚ → ℚ) (acc q1 q0 : ℚ) :
    (acceptFull (LFG.dflt.norm_sample 0 1 1000000) log acc q1 q0).1 = acceptanceDraws := by
  rw [LFG.norm_sample_ok LFG.dflt 0 1 1000000 (by norm_num)]
  exact acceptStep_fst _ _ _ _

theorem acceptFull_snd (log : ℚ → ℚ) (acc q1 q0 : ℚ) :
    (acceptFull (LFG.dflt.norm_sample 0 1 1000000) log acc q1 q0).2 =
      .error .ambiguousTruthValue := by
  rw [LFG.norm_sample_ok LFG.dflt 0 1 1000000 (by norm_num)]
  have hlen : (((LFG.dflt.sample 1000000).2.map
      (fun r : ℤ => (r : ℚ) / (LFG.dflt.m : ℚ) * (1 - 0) + 0)).map log).length ≠ 1 := by
    rw [List.length_map, List.length_map, LFG.sample_snd_length]
    decide
  show (acceptStep _ (pyIfLE _ _) _ _).2 = _
  rw [pyIfLE_err _ _ hlen]
  rfl

theorem HMC.epochStep_fst (h : HMC) (log : ℚ → ℚ) (dist mom : PyDist) (q0 p0 : ℚ) :
    (HMC.epochStep h log dist mom q0 p0).1 = acceptanceDraws :=
  acceptFull_fst log (h.accVal dist mom q0 p0) (h.q1val dist q0 p0) q0

theorem HMC.epochStep_snd (h : HMC) (log : ℚ → ℚ) (dist mom : PyDist) (q0 p0 : ℚ) :
    (HMC.epochStep h log dist mom q0 p0).2 = .error .ambiguousTruthValue :=
  acceptFull_snd log (h.accVal dist mom q0 p0) (h.q1val dist q0 p0) q0

theorem HMC.sample_eq_loop (h : HMC) (log : ℚ → ℚ) (dist mom : PyDist)
    (hd : dist.name = "Normal") (hm : mom.name = "Normal") :
    HMC.sample h log dist mom = HMC.loop h log dist mom h.epochs 1 [mom.draw 0] := by
  have hcond : ¬(dist.name ≠ "Normal" ∨ mom.name ≠ "Normal") := by simp [hd, hm]
  unfold HMC.sample
  rw [if_neg hcond]

theorem HMC.loop_err (h : HMC) (log : ℚ → ℚ) (dist mom : PyDist) (e k : ℕ) (acc : List ℚ) :
    HMC.loop h log dist mom (e + 1) k acc = .error .ambiguousTruthValue := by
  rw [show HMC.loop h log dist mom (e + 1) k acc =
      ((HMC.epochStep h log dist mom (acc.headD 0) (mom.draw k)).2).bind
        (fun v => HMC.loop h log dist mom e (k + 1) (v :: acc)) from rfl,
    HMC.epochStep_snd]
  rfl

/-!  Claim C1. -/

/-- C1 (code bug): the acceptance test of every epoch calls
`rng.norm_sample()` with no argument, inheriting the default `N=10**6`
(rng.py line 139), so `event` holds one million values rather than the one
uniform variate the claim (and the surrounding code's intent) requires;
the subsequent `if event <= acceptance:` then raises numpy's
ambiguous-truth-value `ValueError`, so any run with at least one epoch —
here `epochs = 1` — raises instead of appending `q1` or `q0`. -/
theorem hmc_acceptance_draw_bug (h : HMC) (log : ℚ → ℚ) (dist mom : PyDist) (q0 p0 : ℚ) :
    (HMC.epochStep h log dist mom q0 p0).1.length = 1000000 ∧
    (dist.name = "Normal" → mom.name = "Normal" → h.epochs = 1 →
      HMC.sample h log dist mom = .error .ambiguousTruthValue) := by
  refine ⟨by rw [HMC.epochStep_fst, acceptanceDraws_length], ?_⟩
  intro hd hm he
  rw [HMC.sample_eq_loop h log dist mom hd hm, he, HMC.loop_err]

/-- Witness for `hmc_acceptance_draw_bug`, at the reference configuration
`path_len=1, step_size=0.25, epochs=1` with Normal-tagged stubs. -/
theorem hmc_acceptance_draw_bug_witness :
    normalStub.name = "Normal" ∧ (HMC.mk 1 (1 / 4) 1).epochs = 1 ∧
    (HMC.epochStep (HMC.mk 1 (1 / 4) 1) id normalStub normalStub 0 0).1.length = 1000000 ∧
    HMC.sample (HMC.mk 1 (1 / 4) 1) id normalStub normalStub =
      .error .ambiguousTruthValue :=
  ⟨rfl, rfl,
    (hmc_acceptance_draw_bug (HMC.mk 1 (1 / 4) 1) id normalStub normalStub 0 0).1,
    (hmc_acceptance_draw_bug (HMC.mk 1 (1 / 4) 1) id normalStub normalStub 0 0).2
      rfl rfl rfl⟩

/-!  Claim C3. -/

/-- C3 counterexample: `path_len=1, step_size=2` gives
`steps = int(1/2) = 0 < 1`, yet no `ConfigurationError` (nor any other
error) is signalled — there is no validation at mcmc.py lines 55-57 — and
sampling proceeds: with `epochs = 0` the call returns the length-1 trace
normally. -/
theorem hmc_step_count_not_checked_ce :
    pyInt ((1 : ℚ) / 2) < 1 ∧
    HMC.sample (HMC.mk 1 2 0) id normalStub normalStub = .ok [0] := by
  constructor
  · show (if (0 : ℚ) ≤ 1 / 2 then ⌊(1 : ℚ) / 2⌋ else ⌈(1 : ℚ) / 2⌉) < 1
    rw [if_pos (by norm_num)]
    norm_num [Int.floor_eq_zero_iff]
  · rfl

/-- C3 (amended): the sampler never validates the derived step count: for
every configuration with `int(path_len / step_size) < 1` (and the family
gate passed), sampling proceeds — the leapfrog loop simply runs zero
substeps — rather than signalling a `ConfigurationError`; with `epochs = 0`
it completes and returns the initial momentum-seeded trace. -/
theorem hmc_step_count_not_checked (h : HMC) (log : ℚ → ℚ) (dist mom : PyDist)
    (hd : dist.name = "Normal") (hm : mom.name = "Normal")
    (_hsteps : pyInt (h.path_len / h.step_size) < 1) (he : h.epochs = 0) :
    HMC.sample h log dist mom = .ok [mom.draw 0] := by
  rw [HMC.sample_eq_loop h log dist mom hd hm, he]
  rfl

/-- Witness for `hmc_step_count_not_checked` at `path_len=1, step_size=2,
epochs=0`. -/
theorem hmc_step_count_not_checked_witness :
    normalStub.name = "Normal" ∧ pyInt ((HMC.mk 1 2 0).path_len / (HMC.mk 1 2 0).step_size) < 1 ∧
    (HMC.mk 1 2 0).epochs = 0 ∧
    HMC.sample (HMC.mk 1 2 0) id normalStub normalStub = .ok [normalStub.draw 0] :=
  ⟨rfl, by
      show (if (0 : ℚ) ≤ 1 / 2 then ⌊(1 : ℚ) / 2⌋ else ⌈(1 : ℚ) / 2⌉) < 1
      rw [if_pos (by norm_num)]
      norm_num [Int.floor_eq_zero_iff],
    rfl,
    hmc_step_count_not_checked (HMC.mk 1 2 0) id normalStub normalStub rfl rfl
      (by
        show (if (0 : ℚ) ≤ 1 / 2 then ⌊(1 : ℚ) / 2⌋ else ⌈(1 : ℚ) / 2⌉) < 1
        rw [if_pos (by norm_num)]
        norm_num [Int.floor_eq_zero_iff]) rfl⟩

/-!  Claim C7. -/

/-- C7 (code bug): with `epochs = 0` the trace is the single
momentum-seeded draw, as the claim states; but for any positive epoch
count — here `epochs = 2` — the run raises the ambiguous-truth-value
`ValueError` of the acceptance test (see `hmc_acceptance_draw_bug`)
instead of returning the claimed `k + 1`-element trace, contradicting the
method's own docstring and example. -/
theorem hmc_trace_length_bug (h : HMC) (log : ℚ → ℚ) (dist mom : PyDist)
    (hd : dist.name = "Normal") (hm : mom.name = "Normal") :
    (h.epochs = 0 → HMC.sample h log dist mom = .ok [mom.draw 0]) ∧
    (h.epochs = 2 → HMC.sample h log dist mom = .error .ambiguousTruthValue) := by
  constructor
  · intro he
    rw [HMC.sample_eq_loop h log dist mom hd hm, he]
    rfl
  · intro he
    rw [HMC.sample_eq_loop h log dist mom hd hm, he, HMC.loop_err]

/-- Witness for `hmc_trace_length_bug`: the `epochs = 0` reference
scenario (trace of length 1) and the failing `epochs = 2` case. -/
theorem hmc_trace_length_bug_witness :
    normalStub.name = "Normal" ∧
    HMC.sample (HMC.mk 1 (1 / 4) 0) id normalStub normalStub = .ok [0] ∧
    HMC.sample (HMC.mk 1 (1 / 4) 2) id normalStub normalStub =
      .error .ambiguousTruthValue :=
  ⟨rfl,
    by
      have := (hmc_trace_length_bug (HMC.mk 1 (1 / 4) 0) id normalStub normalStub
        rfl rfl).1 rfl
      simpa using this,
    (hmc_trace_length_bug (HMC.mk 1 (1 / 4) 2) id normalStub normalStub rfl rfl).2 rfl⟩

/-!  Claim C8. -/

/-- C8: when either family tag differs from "Normal" the run fails with
`UnsupportedDistributionError` at the gate (mcmc.py lines 50-54), before
any sampling work: the second conjunct shows the result is the same for
any two distribution pairs carrying the same tags, so no momentum draw,
gradient, or density of the offending distributions is ever consulted. -/
theorem hmc_family_gate (h : HMC) (log : ℚ → ℚ) (dist mom : PyDist)
    (hname : dist.name ≠ "Normal" ∨ mom.name ≠ "Normal") :
    HMC.sample h log dist mom = .error .unsupportedDistribution ∧
    ∀ d2 m2 : PyDist, d2.name = dist.name → m2.name = mom.name →
      HMC.sample h log d2 m2 = HMC.sample h log dist mom := by
  have h1 : HMC.sample h log dist mom = .error .unsupportedDistribution := by
    unfold HMC.sample
    rw [if_pos hname]
  refine ⟨h1, fun d2 m2 hd2 hm2 => ?_⟩
  have h2 : HMC.sample h log d2 m2 = .error .unsupportedDistribution := by
    unfold HMC.sample
    rw [if_pos (by rw [hd2, hm2]; exact hname)]
  rw [h1, h2]

/-- Witness for `hmc_family_gate`: a "Uniform"-tagged target is rejected. -/
theorem hmc_family_gate_witness :
    (uniformStub.name ≠ "Normal" ∨ normalStub.name ≠ "Normal") ∧
    HMC.sample (HMC.mk 1 (1 / 4) 3) id uniformStub normalStub =
      .error .unsupportedDistribution :=
  ⟨Or.inl (by decide),
    (hmc_family_gate (HMC.mk 1 (1 / 4) 3) id uniformStub normalStub
      (Or.inl (by decide))).1⟩

/-!  Claim C9. -/

/-- C9: the acceptance-test variates of one epoch do not depend on the
epoch's state — the configuration, the distributions, the chain position
and the momentum — because each epoch builds a brand-new default-seeded
`LFG` (mcmc.py line 89).  Hence any two epochs of any runs draw the
identical variate list (the fixed initial segment `acceptanceDraws` of the
default-seeded stream). -/
theorem hmc_acceptance_draws_constant (log : ℚ → ℚ) (h1 h2 : HMC)
    (d1 m1 d2 m2 : PyDist) (q0 p0 q0' p0' : ℚ) :
    (HMC.epochStep h1 log d1 m1 q0 p0).1 = (HMC.epochStep h2 log d2 m2 q0' p0').1 := by
  rw [HMC.epochStep_fst, HMC.epochStep_fst]

/-!  Claim C10. -/

theorem Disc.rejPairs_spec : ∀ (n : ℕ) (rng : LFG) (r : ℚ), 0 < r →
    ∃ st ps, Disc.rejPairs rng r n = .ok (st, ps) ∧ ps.length = n := by
  intro n
  induction n with
  | zero => intro rng r hr; exact ⟨rng, [], rfl, rfl⟩
  | succ n ih =>
      intro rng r hr
      rcases ih (rng.sample 2).1 r hr with ⟨st, ps, hps, hlen⟩
      refine ⟨st,
        (((rng.sample 2).2.map
            (fun v : ℤ => (v : ℚ) / (rng.m : ℚ) * (r - -r) + -r)).getD 0 0,
          ((rng.sample 2).2.map
            (fun v : ℤ => (v : ℚ) / (rng.m : ℚ) * (r - -r) + -r)).getD 1 0) :: ps,
        ?_, by rw [List.length_cons, hlen]⟩
      calc Disc.rejPairs rng r (n + 1)
          = (rng.norm_sample (-r) r 2).bind (fun pr =>
              (Disc.rejPairs pr.1 r n).map (fun pr2 =>
                (pr2.1, (pr.2.getD 0 0, pr.2.getD 1 0) :: pr2.2))) := rfl
        _ = (Disc.rejPairs (rng.sample 2).1 r n).map (fun pr2 =>
              (pr2.1,
                (((rng.sample 2).2.map
                    (fun v : ℤ => (v : ℚ) / (rng.m : ℚ) * (r - -r) + -r)).getD 0 0,
                  ((rng.sample 2).2.map
                    (fun v : ℤ => (v : ℚ) / (rng.m : ℚ) * (r - -r) + -r)).getD 1 0) ::
                  pr2.2)) := by
              rw [LFG.norm_sample_ok rng (-r) r 2 (by linarith)]
              rfl
        _ = .ok (st,
              (((rng.sample 2).2.map
                  (fun v : ℤ => (v : ℚ) / (rng.m : ℚ) * (r - -r) + -r)).getD 0 0,
                ((rng.sample 2).2.map
                  (fun v : ℤ => (v : ℚ) / (rng.m : ℚ) * (r - -r) + -r)).getD 1 0) ::
                ps) := by
              rw [hps]
              rfl

theorem Disc.rejection_eq (rng : LFG) (r : ℚ) (n : ℕ) (st : LFG) (ps : List (ℚ × ℚ))
    (h : Disc.rejPairs rng r n = .ok (st, ps)) :
    Disc.rejection ⟨r, rng⟩ n = .ok (ps.map Prod.fst, ps.map Prod.snd) := by
  unfold Disc.rejection
  rw [show (⟨r, rng⟩ : Disc).rng = rng from rfl, show (⟨r, rng⟩ : Disc).r = r from rfl, h]
  rfl

/-- C10: `_rejection` returns the unfiltered columns: for any generator
state, radius `r > 0` and count `n`, the drawing loop succeeds with exactly
`n` pairs and `Disc.rejection` returns all of them, ignoring the computed
`accepted` filter.  Concretely, over the default rejection-strategy disc
(`r = 1`), `Disc.sample` with `N = 1` returns a point whose squared
distance from the origin exceeds `r^2 = 1` — a point the filter would have
removed (the `accepted` list is empty) — so unfiltered out-of-disc points
are actually produced. -/
theorem disc_rejection_unfiltered :
    (∀ (rng : LFG) (r : ℚ) (n : ℕ), 0 < r →
      ∃ st ps, Disc.rejPairs rng r n = .ok (st, ps) ∧ ps.length = n ∧
        Disc.rejection ⟨r, rng⟩ n = .ok (ps.map Prod.fst, ps.map Prod.snd)) ∧
    ∃ x y, Disc.sampleRejection (Disc.make 1) 1 = .ok ([x], [y]) ∧
      (1 : ℚ) * 1 < x * x + y * y ∧ Disc.accepted 1 [(x, y)] = [] := by
  constructor
  · intro rng r n hr
    rcases Disc.rejPairs_spec n rng r hr with ⟨st, ps, hps, hlen⟩
    exact ⟨st, ps, hps, hlen, Disc.rejection_eq rng r n st ps hps⟩
  · refine ⟨((4271596933 : ℤ) : ℚ) / ((4294967296 : ℤ) : ℚ) * (1 - -1) + -1,
      ((203816460 : ℤ) : ℚ) / ((4294967296 : ℤ) : ℚ) * (1 - -1) + -1, by rfl, ?_, ?_⟩
    · norm_num
    · have hout : ¬(((((4271596933 : ℤ) : ℚ) / ((4294967296 : ℤ) : ℚ) * (1 - -1) + -1) *
          (((4271596933 : ℤ) : ℚ) / ((4294967296 : ℤ) : ℚ) * (1 - -1) + -1) +
          (((203816460 : ℤ) : ℚ) / ((4294967296 : ℤ) : ℚ) * (1 - -1) + -1) *
            (((203816460 : ℤ) : ℚ) / ((4294967296 : ℤ) : ℚ) * (1 - -1) + -1)) ≤
            (1 : ℚ) * 1) := by norm_num
      simp only [Disc.accepted, List.filter_cons, decide_eq_true_eq, if_neg hout]
      rfl

/-- Witness for the quantified part of `disc_rejection_unfiltered` at the
default generator, unit radius, one pair. -/
theorem disc_rejection_unfiltered_witness :
    (0 : ℚ) < 1 ∧
    ∃ st ps, Disc.rejPairs LFG.dflt 1 1 = .ok (st, ps) ∧ ps.length = 1 ∧
      Disc.rejection ⟨1, LFG.dflt⟩ 1 = .ok (ps.map Prod.fst, ps.map Prod.snd) :=
  ⟨by norm_num, disc_rejection_unfiltered.1 LFG.dflt 1 1 (by norm_num)⟩

end Pafnuty
